import Mathlib

namespace Bathbot

/-!
Verification development for the Bathbot pagination / active-message core.

Pure fragments are embedded from the Rust source; machine integers are
modelled as `Nat` (all quantities involved are `usize`/`u8`/`u32` values that
never overflow in the scenarios considered), fallible operations return
`Except`/`Option`, and stateful handlers are modelled as explicit
state-passing functions. Definitions come first, followed by the theorems.
-/

/-!
The pagination cursor.

Modelled from the spec: the `Pages` struct itself (fields `index`,
`per_page`, total item count) and its navigation methods are not among the
provided sources; the spec defines `current_page = index / per_page + 1`,
`last_page = ceil(total_items / per_page)`, clamped page-relative moves
rounded down to a multiple of `per_page`, and `jump(N)` rejecting targets
outside `[1, last_page]` with a validation error.
-/
structure Pages where
  index : Nat
  per_page : Nat
  total_items : Nat
deriving DecidableEq, Repr

/-- Modelled from the spec: `new(per_page, total_items)` fails if `per_page == 0`. -/
def Pages.mk? (per_page total_items : Nat) : Option Pages :=
  if per_page = 0 then Option.none else some ⟨0, per_page, total_items⟩

/-- Modelled from the spec: `current_page = index / per_page + 1`. -/
def Pages.curr_page (p : Pages) : Nat :=
  p.index / p.per_page + 1

/-- Modelled from the spec: `last_page = ceil(total_items / per_page)`. -/
def Pages.last_page (p : Pages) : Nat :=
  (p.total_items + p.per_page - 1) / p.per_page

/-- Start index of the last page (page-aligned). -/
def Pages.last_start (p : Pages) : Nat :=
  (p.last_page - 1) * p.per_page

def Pages.set_index (p : Pages) (i : Nat) : Pages :=
  { p with index := i }

/-- Modelled from the spec: navigation `first` resets the cursor to offset 0. -/
def Pages.nav_first (p : Pages) : Pages :=
  p.set_index 0

/-- Modelled from the spec: `previous` moves back one page, clamped at 0. -/
def Pages.nav_prev (p : Pages) : Pages :=
  p.set_index (p.index - p.per_page)

/-- Modelled from the spec: `next` moves forward one page, clamped to the
start of the last page (so `next` on the last page is a no-op). -/
def Pages.nav_next (p : Pages) : Pages :=
  p.set_index (min (p.index + p.per_page) p.last_start)

/-- Modelled from the spec: `last` jumps to the page-aligned start of the
last page. -/
def Pages.nav_last (p : Pages) : Pages :=
  p.set_index p.last_start

/-- Modelled from the spec: `jump(N)` for `N` outside `[1, last_page]`
yields a validation error (not silently clamped); a valid target moves the
cursor to the start of page `N`. -/
def Pages.jump (p : Pages) (n : Nat) : Except String Pages :=
  if 1 ≤ n ∧ n ≤ p.last_page then
    Except.ok (p.set_index ((n - 1) * p.per_page))
  else
    Except.error "Invalid page number"

/-- The cursor state after a jump request: on a validation error the cursor
is left unchanged. -/
def Pages.apply_jump (p : Pages) (n : Nat) : Pages :=
  match p.jump n with
  | Except.ok p2 => p2
  | Except.error _ => p

/-- Modelled from the spec: `page_window() -> (start, end)`, half-open slice
bounds into the backing collection for the current page. -/
def Pages.page_window (p : Pages) : Nat × Nat :=
  (p.index, min p.total_items (p.index + p.per_page))

/-!
Page slices computed by the three `build_page` implementations cited for C1;
these are embedded from the source files.
-/

/-- From `src/pagination/osekai_medal_count.rs`, `build_page`:
`page = curr_page; idx = (page - 1) * per_page; limit = len.min(idx + per_page)`;
the page slice is `ranking[idx..limit]`. -/
def medal_count_window (p : Pages) (ranking_len : Nat) : Nat × Nat :=
  let page := p.curr_page
  let idx := (page - 1) * p.per_page
  let limit := min ranking_len (idx + p.per_page)
  (idx, limit)

/-- From `bathbot/src/active/impls/medals/missing.rs`, `build_page`:
`idx = pages.index(); limit = medals.len().min(idx + pages.per_page())`;
the page slice is `medals[idx..limit]`. -/
def medals_missing_window (p : Pages) (medals_len : Nat) : Nat × Nat :=
  let idx := p.index
  let limit := min medals_len (idx + p.per_page)
  (idx, limit)

/-- From `src/pagination/command_count.rs`, `build_page`: the page content is
`cmd_counts.iter().skip(index).take(per_page)`. -/
def command_count_sub_list (p : Pages) (cmd_counts : List (String × Nat)) :
    List (String × Nat) :=
  (cmd_counts.drop p.index).take p.per_page

/-- The half-open index range selected by `skip(index).take(per_page)`. -/
def command_count_window (p : Pages) (len : Nat) : Nat × Nat :=
  (min p.index len, min (p.index + p.per_page) len)

/-!
Component / modal routing for paginated active messages.

Modelled from the spec: `handle_pagination_component` and
`handle_pagination_modal` (referenced from
`bathbot/src/active/impls/medals/missing.rs`) are not among the provided
sources. Per the spec, a non-owner interaction is rejected to the actor with
an ephemeral notice and performs no state mutation; owner navigation events
mutate the cursor and trigger a re-render; the custom-jump button opens a
modal; a modal with an out-of-range page number yields a validation error
and leaves the cursor unchanged.
-/

/-- Navigation directions of the pagination control surface. -/
inductive NavAction
  | nav_first
  | nav_prev
  | nav_next
  | nav_last
  | nav_custom
deriving DecidableEq, Repr

/-- Outcome of handling a component interaction. -/
inductive ComponentOutcome
  | update
  | open_modal
  | rejected_not_owner
deriving DecidableEq, Repr

/-- Outcome of handling a modal submit. -/
inductive ModalOutcome
  | update
  | validation_error (msg : String)
deriving DecidableEq, Repr

/-- Modelled from the spec: the shared component handler checks the acting
user against the message owner; on mismatch it replies with an ephemeral
notice and mutates nothing; on match it applies the navigation to the
cursor. -/
def handle_pagination_component (actor msg_owner : Nat) (action : NavAction)
    (p : Pages) : ComponentOutcome × Pages :=
  if actor ≠ msg_owner then
    (ComponentOutcome.rejected_not_owner, p)
  else
    match action with
    | NavAction.nav_first => (ComponentOutcome.update, p.nav_first)
    | NavAction.nav_prev => (ComponentOutcome.update, p.nav_prev)
    | NavAction.nav_next => (ComponentOutcome.update, p.nav_next)
    | NavAction.nav_last => (ComponentOutcome.update, p.nav_last)
    | NavAction.nav_custom => (ComponentOutcome.open_modal, p)

/-- Modelled from the spec: the shared modal handler checks ownership, then
validates the submitted page number via `jump`; out-of-range input is
reported as a validation error with the cursor unchanged. -/
def handle_pagination_modal (actor msg_owner : Nat) (input : Nat)
    (p : Pages) : ModalOutcome × Pages :=
  if actor ≠ msg_owner then
    (ModalOutcome.validation_error "Not your message", p)
  else
    match p.jump input with
    | Except.ok p2 => (ModalOutcome.update, p2)
    | Except.error e => (ModalOutcome.validation_error e, p)

/-- The state-dependent parts of the page rendered by
`MedalsMissingPagination::build_page` (from
`bathbot/src/active/impls/medals/missing.rs`): the description is built from
the slice `medals[idx..limit]` and the footer from
`curr_page`/`last_page`; for a fixed medal payload the rendered content is a
function of these values. -/
structure RenderedPage where
  window : Nat × Nat
  footer_page : Nat
  footer_last : Nat
deriving DecidableEq, Repr

/-- Rendering of the medals-missing page as a function of the cursor state
and the (fixed) payload length. -/
def medals_missing_render (p : Pages) (medals_len : Nat) : RenderedPage :=
  { window := medals_missing_window p medals_len
    footer_page := p.curr_page
    footer_last := p.last_page }

/-!
Higher-lower game state, from
`bathbot/src/active/impls/higherlower/state.rs`.
-/

/-- Game modes of the stat service (`rosu_v2::prelude::GameMode`). -/
inductive GameMode
  | osu
  | taiko
  | catch
  | mania
deriving DecidableEq, Repr

/-- The guess submitted by the player. -/
inductive HlGuess
  | higher
  | lower
deriving DecidableEq, Repr

/-- The fields of `ScorePp` relevant here. The source's `pp: f32` is
modelled as a rational number: the pp values delivered by the stat API are
finite non-NaN floats, on which the float order agrees with the order of the
represented rationals. -/
structure ScorePp where
  pp : ℚ
  avatar_url : String
  mapset_id : Nat
deriving DecidableEq, Repr

/-- The `HigherLowerState::ScorePp` variant. -/
structure HigherLowerState where
  mode : GameMode
  previous : ScorePp
  next : ScorePp
deriving DecidableEq, Repr

/-- From `HigherLowerState::check_guess`:
`Higher => next.pp >= previous.pp`, `Lower => next.pp <= previous.pp`. -/
def HigherLowerState.check_guess (s : HigherLowerState) (guess : HlGuess) : Bool :=
  match guess with
  | HlGuess.higher => decide (s.next.pp ≥ s.previous.pp)
  | HlGuess.lower => decide (s.next.pp ≤ s.previous.pp)

/-!
Background artifact handoff, from
`bathbot/src/active/impls/higherlower/state.rs`.

In both `start_score_pp` and the task spawned in `next`, the producer
computes `ScorePp::image(...)` and performs exactly one `tx.send` on the
oneshot channel: the image URL on success, or `String::new()` (after a
`warn!` log) on failure. The values sent into the slot by one producer run
are modelled as a trace list.
-/

/-- Failure of `ScorePp::image`. -/
inductive ImageError
  | failed (msg : String)
deriving DecidableEq, Repr

/-- Outcome of `ScorePp::image`. -/
abbrev ImageResult := Except ImageError String

/-- The values a single producer run sends into the oneshot slot, as a
function of the image-computation outcome: `tx.send(url)` on success,
`tx.send(String::new())` on failure. -/
def image_producer_sends (res : ImageResult) : List String :=
  match res with
  | Except.ok url => [url]
  | Except.error _ => [""]

/-- The claim's wording, as a predicate: the written value carries either
the success payload or a typed failure reason, i.e. the write itself
distinguishes a failed computation from a successful one. -/
def slot_write_is_typed : Prop :=
  ∀ r1 r2 : ImageResult,
    image_producer_sends r1 = image_producer_sends r2 → (r1.isOk = r2.isOk)

/-!
Active message registry and timeout sweeper.

Modelled from the spec: the registry and sweeper implementation (behind
`Pagination::start` called from `src/commands/fun/bg_game/rankings.rs` with
a 60 second timeout) is not among the provided sources. Per the spec, the
registry maps a message identity to an entry carrying
`last_interaction_at` and `expires_after`; the sweeper disables the controls
of every entry with `now - last_interaction_at > expires_after` and removes
it; a component event whose message identity is no longer registered yields
the "stale" outcome and mutates nothing.
-/

/-- A registry entry: interaction timestamps in seconds. -/
structure ActiveMessageEntry where
  last_interaction_at : Nat
  expires_after : Nat
deriving DecidableEq, Repr

/-- The registry, keyed by message identity. -/
def Registry := List (Nat × ActiveMessageEntry)

/-- Registry lookup by message identity. -/
def registry_lookup (reg : Registry) (id : Nat) : Option ActiveMessageEntry :=
  (List.find? (fun e => e.1 = id) reg).map Prod.snd

/-- An entry is expired when `now - last_interaction_at > expires_after`. -/
def entry_expired (now : Nat) (e : ActiveMessageEntry) : Bool :=
  decide (e.expires_after < now - e.last_interaction_at)

/-- One sweeper pass at time `now`: expired entries are removed. -/
def sweep (now : Nat) (reg : Registry) : Registry :=
  List.filter (fun e => ! entry_expired now e.2) reg

/-- The message identities whose controls the sweeper pass disables
(best-effort platform edit) — exactly the removed entries. -/
def sweep_disabled (now : Nat) (reg : Registry) : List Nat :=
  List.map Prod.fst (List.filter (fun e => entry_expired now e.2) reg)

/-- Router outcome for a component event. -/
inductive RouteOutcome
  | stale
  | handled
deriving DecidableEq, Repr

/-- Modelled from the spec: the router looks the message identity up; if it
is absent the event yields the "stale" outcome with no mutation; otherwise
the event is handled and the entry is touched (`last_interaction_at` reset
to `now`). -/
def route_component (reg : Registry) (id now : Nat) : RouteOutcome × Registry :=
  match registry_lookup reg id with
  | Option.none => (RouteOutcome.stale, reg)
  | some _ =>
      (RouteOutcome.handled,
        List.map (fun e =>
          if e.1 = id then (e.1, { e.2 with last_interaction_at := now }) else e) reg)

/-!
The background-game rankings command, from
`src/commands/fun/bg_game/rankings.rs` (`_rankings`): after fetching and
optionally filtering the scores, they are sorted descending; usernames are
fetched for the first 15 entries; the initial embed is posted with page
`(1, div_euclid 15 len)`; if `scores.len() <= 15` the function returns `Ok`
immediately, otherwise a `BGRankingPagination` is spawned with
`pagination.start(&ctx, owner, 60)`.
-/

/-- Modelled from the spec: `numbers::div_euclid` (not among the provided
sources) computes the page count, i.e. `ceil(len / group)` per the spec's
`last_page` definition. -/
def div_euclid (group len : Nat) : Nat :=
  (len + group - 1) / group

/-- The externally visible outcome of the success path of `_rankings`. -/
structure RankingsOutcome where
  first_page_entries : List (Nat × Nat)
  initial_embed_pages : Nat × Nat
  messages_posted : Nat
  pagination_timeout : Option Nat
deriving DecidableEq, Repr

/-- The success path of `_rankings` as a function of the fetched
`(user_id, score)` list: sort descending by score, post one initial embed
built from the first 15 entries, and spawn the 60 second pagination only
when more than 15 entries exist. -/
def rankings_outcome (scores : List (Nat × Nat)) : RankingsOutcome :=
  let sorted := scores.mergeSort (fun a b => b.2 ≤ a.2)
  let pages := div_euclid 15 sorted.length
  { first_page_entries := sorted.take 15
    initial_embed_pages := (1, pages)
    messages_posted := 1
    pagination_timeout :=
      if sorted.length ≤ 15 then Option.none else some 60 }

/-!
Minesweeper, from `src/commands/fun/minesweeper.rs`.

`Matrix` comes from `crate::util`, which is not among the provided sources;
it is modelled from its use in the source as a width × height grid with
by-position indexing, default-initialized cells, and `count_neighbors`
counting the cells equal to a given value among the at most 8 in-bounds
neighbors of a position. The `rand` mine-placement loop draws `next_u32`
values; it is modelled over an explicit finite list of draws, returning
`none` when the list is exhausted before all mines are placed (the real
loop would keep drawing).
-/

/-- The `Cell` enum; its `Default` is `None`. -/
inductive Cell
  | num (n : Nat)
  | mine
  | none
deriving DecidableEq, Repr

/-- Modelled from the spec sources' use of `crate::util::Matrix`: a grid
with by-position data. -/
structure Matrix (α : Type) where
  width : Nat
  height : Nat
  data : Nat × Nat → α

/-- Indexing `field[(x, y)]`. -/
def Matrix.get {α : Type} (m : Matrix α) (x y : Nat) : α :=
  m.data (x, y)

/-- Assignment `field[(x, y)] = v`. -/
def Matrix.set {α : Type} (m : Matrix α) (x y : Nat) (v : α) : Matrix α :=
  { m with data := Function.update m.data (x, y) v }

/-- Model of `Matrix::new(width, height)` with default-initialized (`None`)
cells. -/
def Matrix.new (width height : Nat) : Matrix Cell :=
  ⟨width, height, fun _ => Cell.none⟩

/-- Offsets of the 8 positions surrounding a cell. -/
def neighbor_offsets : List (Int × Int) :=
  [(-1, -1), (-1, 0), (-1, 1), (0, -1), (0, 1), (1, -1), (1, 0), (1, 1)]

/-- Model of `count_neighbors(x, y, cell)`: the number of in-bounds
neighbors of `(x, y)` holding `cell`. -/
def Matrix.count_neighbors {α : Type} [DecidableEq α] (m : Matrix α)
    (x y : Nat) (c : α) : Nat :=
  (neighbor_offsets.filter (fun d =>
    decide (0 ≤ (x : Int) + d.1) && decide ((x : Int) + d.1 < (m.width : Int)) &&
    decide (0 ≤ (y : Int) + d.2) && decide ((y : Int) + d.2 < (m.height : Int)) &&
    decide (m.get ((x : Int) + d.1).toNat ((y : Int) + d.2).toNat = c))).length

/-- The mine-placement loop of `Minesweeper::new`: while mines remain,
draw `r`, reduce modulo `size`, and if the targeted cell is still `None`
turn it into a mine. -/
def place_mines : List Nat → Matrix Cell → Nat → Option (Matrix Cell)
  | _, field, 0 => some field
  | [], _, _ + 1 => Option.none
  | r :: rs, field, n + 1 =>
      let rr := r % (field.width * field.height)
      if field.get (rr % field.width) (rr / field.width) = Cell.none then
        place_mines rs (field.set (rr % field.width) (rr / field.width) Cell.mine) n
      else
        place_mines rs field (n + 1)

/-- One step of the number-placement loop: a still-`None` cell becomes
`Num(count_neighbors(x, y, Mine))`. -/
def place_numbers_step (f : Matrix Cell) (q : Nat × Nat) : Matrix Cell :=
  if f.get q.1 q.2 = Cell.none then
    f.set q.1 q.2 (Cell.num (f.count_neighbors q.1 q.2 Cell.mine))
  else
    f

/-- The number-placement loop of `Minesweeper::new`: `for x in 0..width`,
`for y in 0..height`, fill every non-mine cell. -/
def place_numbers (field : Matrix Cell) : Matrix Cell :=
  (List.product (List.range field.width) (List.range field.height)).foldl
    place_numbers_step field

/-- The `Minesweeper` struct. -/
structure Minesweeper where
  field : Matrix Cell
  mines : Nat

/-- Model of `Minesweeper::new(height, width, mines)` over an explicit list
of RNG draws. -/
def Minesweeper.new (rng : List Nat) (height width mines : Nat) :
    Option Minesweeper :=
  (place_mines rng (Matrix.new width height) mines).map
    (fun f => Minesweeper.mk (place_numbers f) mines)

/-- The difficulty presets of the command. -/
inductive Difficulty
  | easy
  | medium
  | hard
deriving DecidableEq, Repr

/-- The `create()` parameters `(height, width, mines)` of `Minesweeper::new`
for each difficulty. -/
def Difficulty.create_params : Difficulty → Nat × Nat × Nat
  | Difficulty.easy => (6, 6, 6)
  | Difficulty.medium => (8, 8, 12)
  | Difficulty.hard => (11, 9, 20)

/-- The `Display` implementation for `Cell`, with `none` standing for the
`unreachable!()` branch. -/
def Cell.display : Cell → Option String
  | Cell.num 0 => some "zero"
  | Cell.num 1 => some "one"
  | Cell.num 2 => some "two"
  | Cell.num 3 => some "three"
  | Cell.num 4 => some "four"
  | Cell.num 5 => some "five"
  | Cell.num 6 => some "six"
  | Cell.num 7 => some "seven"
  | Cell.num 8 => some "eight"
  | Cell.mine => some "bomb"
  | _ => Option.none

/-- The in-range positions of a field. -/
def grid_positions (m : Matrix Cell) : Finset (Nat × Nat) :=
  Finset.range m.width ×ˢ Finset.range m.height

/-- The number of mine cells of a field. -/
def mine_card (m : Matrix Cell) : Nat :=
  ((grid_positions m).filter (fun p => m.get p.1 p.2 = Cell.mine)).card

/-!
Theorems. Supporting lemmas come first, then the claim theorems with their
witnesses.
-/

/-- The `skip`/`take` slice of `command_count_sub_list` covers exactly the
index range given by `command_count_window`. -/
theorem command_count_sub_list_length (p : Pages) (l : List (String × Nat)) :
    (command_count_sub_list p l).length =
      (command_count_window p l.length).2 - (command_count_window p l.length).1 := by
  simp only [command_count_sub_list, command_count_window, List.length_take,
    List.length_drop]
  omega

theorem Matrix.get_set {α : Type} (m : Matrix α) (x y : Nat) (v : α)
    (a b : Nat) :
    (m.set x y v).get a b = if (a, b) = (x, y) then v else m.get a b := by
  simp [Matrix.set, Matrix.get, Function.update_apply]

theorem count_neighbors_le_eight {α : Type} [DecidableEq α] (m : Matrix α)
    (x y : Nat) (c : α) : m.count_neighbors x y c ≤ 8 :=
  (List.length_filter_le _ _).trans (by simp [neighbor_offsets])

theorem count_neighbors_congr {α : Type} [DecidableEq α]
    (m1 m2 : Matrix α) (hw : m1.width = m2.width) (hh : m1.height = m2.height)
    (c : α) (hc : ∀ a b, m1.get a b = c ↔ m2.get a b = c) (x y : Nat) :
    m1.count_neighbors x y c = m2.count_neighbors x y c := by
  unfold Matrix.count_neighbors
  refine congrArg List.length (List.filter_congr ?_)
  intro d _
  simp only [hw, hh]
  congr 1
  exact decide_eq_decide.mpr (hc _ _)

theorem mine_card_congr (m1 m2 : Matrix Cell) (hw : m1.width = m2.width)
    (hh : m1.height = m2.height)
    (hm : ∀ a b, m1.get a b = Cell.mine ↔ m2.get a b = Cell.mine) :
    mine_card m1 = mine_card m2 := by
  unfold mine_card grid_positions
  rw [hw, hh]
  refine congrArg Finset.card (Finset.filter_congr ?_)
  intro p _
  exact hm p.1 p.2

theorem mine_card_set_mine (m : Matrix Cell) (x y : Nat)
    (hx : x < m.width) (hy : y < m.height) (h : m.get x y ≠ Cell.mine) :
    mine_card (m.set x y Cell.mine) = mine_card m + 1 := by
  unfold mine_card
  have hgp : grid_positions (m.set x y Cell.mine) = grid_positions m := rfl
  rw [hgp]
  have hfe : (grid_positions m).filter
        (fun p => (m.set x y Cell.mine).get p.1 p.2 = Cell.mine) =
      insert (x, y) ((grid_positions m).filter
        (fun p => m.get p.1 p.2 = Cell.mine)) := by
    ext a
    simp only [Finset.mem_filter, Finset.mem_insert, Matrix.get_set]
    by_cases ha : a = (x, y)
    · subst ha
      simp [grid_positions, Finset.mem_product, hx, hy]
    · have ha2 : ((a.1, a.2) = (x, y)) = False := by
        simpa using ha
      simp [ha2, ha]
  rw [hfe, Finset.card_insert_of_not_mem]
  simp [Finset.mem_filter, h]

theorem mine_card_new (w h : Nat) : mine_card (Matrix.new w h) = 0 := by
  unfold mine_card
  convert Finset.card_empty
  refine Finset.filter_false_of_mem ?_
  intro p _
  simp [Matrix.new, Matrix.get]

theorem place_mines_spec (rng : List Nat) :
    ∀ (f : Matrix Cell) (n : Nat) (g : Matrix Cell),
      0 < f.width * f.height →
      place_mines rng f n = some g →
      g.width = f.width ∧ g.height = f.height ∧
      mine_card g = mine_card f + n ∧
      (∀ x y, g.get x y = f.get x y ∨ g.get x y = Cell.mine) := by
  induction rng with
  | nil =>
      intro f n g hsize h
      cases n with
      | zero =>
          simp only [place_mines, Option.some.injEq] at h
          subst h
          exact ⟨rfl, rfl, rfl, fun x y => Or.inl rfl⟩
      | succ k =>
          simp only [place_mines] at h
          exact Option.noConfusion h
  | cons r rs ih =>
      intro f n g hsize h
      cases n with
      | zero =>
          simp only [place_mines, Option.some.injEq] at h
          subst h
          exact ⟨rfl, rfl, rfl, fun x y => Or.inl rfl⟩
      | succ k =>
          have hw : 0 < f.width := by
            rcases Nat.eq_zero_or_pos f.width with h0 | h0
            · rw [h0] at hsize; simp at hsize
            · exact h0
          have hh : 0 < f.height := by
            rcases Nat.eq_zero_or_pos f.height with h0 | h0
            · rw [h0, Nat.mul_zero] at hsize; simp at hsize
            · exact h0
          simp only [place_mines] at h
          set rr := r % (f.width * f.height) with hrr
          have hrrlt : rr < f.width * f.height := Nat.mod_lt _ hsize
          have hxlt : rr % f.width < f.width := Nat.mod_lt _ hw
          have hylt : rr / f.width < f.height := by
            rw [Nat.div_lt_iff_lt_mul hw]
            calc rr < f.width * f.height := hrrlt
              _ = f.height * f.width := Nat.mul_comm _ _
          split at h
          case isTrue hnone =>
            have hsize2 :
                0 < (f.set (rr % f.width) (rr / f.width) Cell.mine).width *
                  (f.set (rr % f.width) (rr / f.width) Cell.mine).height := hsize
            obtain ⟨hgw, hgh, hcard, hcells⟩ := ih _ k g hsize2 h
            refine ⟨hgw, hgh, ?_, ?_⟩
            · rw [hcard, mine_card_set_mine f _ _ hxlt hylt (by rw [hnone]; simp)]
              omega
            · intro x y
              rcases hcells x y with hc | hc
              · rw [hc, Matrix.get_set]
                split
                · exact Or.inr rfl
                · exact Or.inl rfl
              · exact Or.inr hc
          case isFalse hne =>
            exact ih f (k + 1) g hsize h

theorem place_numbers_fold (g : Matrix Cell) :
    ∀ (L : List (Nat × Nat)) (f : Matrix Cell),
      f.width = g.width → f.height = g.height →
      (∀ x y, f.get x y = Cell.mine ↔ g.get x y = Cell.mine) →
      (∀ x y, f.get x y = g.get x y ∨
        f.get x y = Cell.num (g.count_neighbors x y Cell.mine)) →
      (L.foldl place_numbers_step f).width = g.width ∧
      (L.foldl place_numbers_step f).height = g.height ∧
      (∀ x y, (L.foldl place_numbers_step f).get x y = Cell.mine ↔
        g.get x y = Cell.mine) ∧
      (∀ x y, (L.foldl place_numbers_step f).get x y = g.get x y ∨
        (L.foldl place_numbers_step f).get x y =
          Cell.num (g.count_neighbors x y Cell.mine)) ∧
      (∀ x y, f.get x y ≠ Cell.none →
        (L.foldl place_numbers_step f).get x y = f.get x y) ∧
      (∀ q ∈ L, (L.foldl place_numbers_step f).get q.1 q.2 ≠ Cell.none) := by
  intro L
  induction L with
  | nil =>
      intro f hw hh hmine hcells
      exact ⟨hw, hh, hmine, hcells, fun x y _ => rfl, by simp⟩
  | cons q L2 ih =>
      intro f hw hh hmine hcells
      simp only [List.foldl_cons]
      have hstep_get : ∀ x y, (place_numbers_step f q).get x y =
          if (x, y) = (q.1, q.2) ∧ f.get q.1 q.2 = Cell.none then
            Cell.num (f.count_neighbors q.1 q.2 Cell.mine)
          else f.get x y := by
        intro x y
        unfold place_numbers_step
        split
        case isTrue hq =>
          rw [Matrix.get_set]
          by_cases hxy : (x, y) = (q.1, q.2) <;> simp [hxy, hq]
        case isFalse hq =>
          simp [hq]
      have hw2 : (place_numbers_step f q).width = g.width := by
        unfold place_numbers_step
        split <;> simpa [Matrix.set]
      have hh2 : (place_numbers_step f q).height = g.height := by
        unfold place_numbers_step
        split <;> simpa [Matrix.set]
      have hmine2 : ∀ x y, (place_numbers_step f q).get x y = Cell.mine ↔
          g.get x y = Cell.mine := by
        intro x y
        rw [hstep_get]
        split
        case isTrue hcond =>
          obtain ⟨hx1, hy1⟩ := Prod.mk.inj hcond.1
          constructor
          · intro habs; cases habs
          · intro habs
            have hfx : f.get x y = Cell.mine := (hmine x y).mpr habs
            rw [hx1, hy1, hcond.2] at hfx
            cases hfx
        case isFalse hcond =>
          exact hmine x y
      have hcount : f.count_neighbors q.1 q.2 Cell.mine =
          g.count_neighbors q.1 q.2 Cell.mine :=
        count_neighbors_congr f g hw hh Cell.mine hmine q.1 q.2
      have hcells2 : ∀ x y, (place_numbers_step f q).get x y = g.get x y ∨
          (place_numbers_step f q).get x y =
            Cell.num (g.count_neighbors x y Cell.mine) := by
        intro x y
        rw [hstep_get]
        split
        case isTrue hcond =>
          obtain ⟨hx1, hy1⟩ := Prod.mk.inj hcond.1
          subst hx1; subst hy1
          exact Or.inr (by rw [hcount])
        case isFalse hcond =>
          exact hcells x y
      obtain ⟨rw2, rh2, rmine, rcells, rkeep, rdone⟩ :=
        ih (place_numbers_step f q) hw2 hh2 hmine2 hcells2
      have hkeep_step : ∀ x y, f.get x y ≠ Cell.none →
          (place_numbers_step f q).get x y = f.get x y := by
        intro x y hne
        rw [hstep_get]
        split
        case isTrue hcond =>
          obtain ⟨hx1, hy1⟩ := Prod.mk.inj hcond.1
          subst hx1; subst hy1
          exact absurd hcond.2 hne
        case isFalse hcond => rfl
      refine ⟨rw2, rh2, rmine, rcells, ?_, ?_⟩
      · intro x y hne
        rw [rkeep x y (by rw [hkeep_step x y hne]; exact hne), hkeep_step x y hne]
      · intro p hp
        rcases List.mem_cons.mp hp with hpq | hpL
        · have hq_ne : (place_numbers_step f q).get q.1 q.2 ≠ Cell.none := by
            rw [hstep_get]
            split
            case isTrue hcond => intro habs; cases habs
            case isFalse hcond =>
              push_neg at hcond
              by_cases hqn : f.get q.1 q.2 = Cell.none
              · exact absurd hqn (hcond rfl)
              · exact hqn
          rw [hpq, rkeep q.1 q.2 hq_ne]
          exact hq_ne
        · exact rdone p hpL

/-- C1: for every cursor satisfying the data-model invariant
(`per_page > 0`, `index ≤ total_items`), the half-open page slice `(start, end)`
computed for the current page by each of the three cited `build_page`
implementations (and by the spec's generic `page_window`) satisfies
`0 ≤ start ≤ end ≤ total_items` and `end - start ≤ per_page`. -/
theorem page_slice_bounds (p : Pages)
    (h1 : 0 < p.per_page) (h2 : p.index ≤ p.total_items) :
    (p.page_window.1 ≤ p.page_window.2 ∧
      p.page_window.2 ≤ p.total_items ∧
      p.page_window.2 - p.page_window.1 ≤ p.per_page) ∧
    ((medal_count_window p p.total_items).1 ≤ (medal_count_window p p.total_items).2 ∧
      (medal_count_window p p.total_items).2 ≤ p.total_items ∧
      (medal_count_window p p.total_items).2 - (medal_count_window p p.total_items).1 ≤
        p.per_page) ∧
    ((medals_missing_window p p.total_items).1 ≤ (medals_missing_window p p.total_items).2 ∧
      (medals_missing_window p p.total_items).2 ≤ p.total_items ∧
      (medals_missing_window p p.total_items).2 - (medals_missing_window p p.total_items).1 ≤
        p.per_page) ∧
    ((command_count_window p p.total_items).1 ≤ (command_count_window p p.total_items).2 ∧
      (command_count_window p p.total_items).2 ≤ p.total_items ∧
      (command_count_window p p.total_items).2 - (command_count_window p p.total_items).1 ≤
        p.per_page) := by
  have hdm : p.index / p.per_page * p.per_page ≤ p.index := Nat.div_mul_le_self _ _
  simp only [Pages.page_window, medal_count_window, medals_missing_window,
    command_count_window, Pages.curr_page, Nat.add_sub_cancel]
  omega

/-- C1 witness: the bounds hold for the concrete cursor
`index = 30, per_page = 15, total_items = 37`. -/
theorem page_slice_bounds_witness :
    (0 : Nat) < 15 ∧ (30 : Nat) ≤ 37 ∧
    ((Pages.mk 30 15 37).page_window.1 ≤ (Pages.mk 30 15 37).page_window.2 ∧
      (Pages.mk 30 15 37).page_window.2 ≤ 37 ∧
      (Pages.mk 30 15 37).page_window.2 - (Pages.mk 30 15 37).page_window.1 ≤ 15) :=
  ⟨by decide, by decide, (page_slice_bounds (Pages.mk 30 15 37) (by decide) (by decide)).1⟩

/-- C4: for a collection of 37 items with `per_page = 15` the cursor's
`last_page` is 3; after `jump(3)` the index is 30 and the page window is
`(30, 37)`; a subsequent `next` navigation is a no-op leaving the index at 30. -/
theorem scenario_37_items : (Pages.mk? 15 37).map Pages.last_page = some 3 ∧
    (Pages.mk? 15 37).map (fun p => p.apply_jump 3) = some (Pages.mk 30 15 37) ∧
    (Pages.mk 30 15 37).page_window = (30, 37) ∧
    (Pages.mk 30 15 37).nav_next = Pages.mk 30 15 37 := by
  decide

/-- C6: navigating `last` followed by `first` returns the index to 0, and
navigating `next` while already on the last page (page-aligned cursor) is a
no-op leaving the index unchanged. -/
theorem last_first_next_noop (p : Pages)
    (h1 : 0 < p.per_page) (h2 : p.per_page ∣ p.index) :
    (p.nav_last.nav_first).index = 0 ∧
    (p.curr_page = p.last_page → p.nav_next = p) := by
  refine ⟨rfl, fun hl => ?_⟩
  have hstart : p.last_start = p.index := by
    have : p.index / p.per_page * p.per_page = p.index := Nat.div_mul_cancel h2
    simp only [Pages.last_start, ← hl, Pages.curr_page, Nat.add_sub_cancel]
    omega
  simp only [Pages.nav_next, hstart, Pages.set_index, min_eq_right (Nat.le_add_right _ _)]

/-- C6 witness: the no-op holds at the concrete cursor
`index = 30, per_page = 15, total_items = 37`, which is on its last page. -/
theorem last_first_next_noop_witness :
    (0 : Nat) < 15 ∧ (15 : Nat) ∣ 30 ∧
    ((Pages.mk 30 15 37).nav_last.nav_first).index = 0 ∧
    ((Pages.mk 30 15 37).curr_page = (Pages.mk 30 15 37).last_page →
      (Pages.mk 30 15 37).nav_next = Pages.mk 30 15 37) :=
  ⟨by decide, by decide,
    (last_first_next_noop (Pages.mk 30 15 37) (by decide) (by decide)).1,
    (last_first_next_noop (Pages.mk 30 15 37) (by decide) (by decide)).2⟩

/-- C3: a component event from a user other than the registered owner never
changes the rendered content or mutates any state (the handler returns only
the ephemeral rejection), and re-rendering with no cursor change is
idempotent: rendering twice from the same state produces identical content. -/
theorem non_owner_no_mutation (actor msg_owner : Nat) (action : NavAction)
    (p : Pages) (medals_len : Nat) (h : actor ≠ msg_owner) :
    handle_pagination_component actor msg_owner action p =
      (ComponentOutcome.rejected_not_owner, p) ∧
    medals_missing_render (handle_pagination_component actor msg_owner action p).2
        medals_len = medals_missing_render p medals_len ∧
    (∀ q : Pages, medals_missing_render q medals_len =
      medals_missing_render q medals_len) := by
  have hc : handle_pagination_component actor msg_owner action p =
      (ComponentOutcome.rejected_not_owner, p) := by
    simp only [handle_pagination_component, if_pos h]
  exact ⟨hc, by rw [hc], fun _ => rfl⟩

/-- C3 witness: user 2 interacting with a message owned by user 1 is
rejected without mutation. -/
theorem non_owner_no_mutation_witness :
    (2 : Nat) ≠ 1 ∧
    handle_pagination_component 2 1 NavAction.nav_next (Pages.mk 0 15 37) =
      (ComponentOutcome.rejected_not_owner, Pages.mk 0 15 37) :=
  ⟨by decide,
    (non_owner_no_mutation 2 1 NavAction.nav_next (Pages.mk 0 15 37) 37
      (by decide)).1⟩

/-- C5: for every cursor and every jump target outside `[1, last_page]`, the
jump yields a validation error and leaves the cursor completely unchanged
(no silent clamping). -/
theorem out_of_range_jump (msg_owner n : Nat) (p : Pages)
    (h : n < 1 ∨ p.last_page < n) :
    p.jump n = Except.error "Invalid page number" ∧
    p.apply_jump n = p ∧
    handle_pagination_modal msg_owner msg_owner n p =
      (ModalOutcome.validation_error "Invalid page number", p) := by
  have hj : p.jump n = Except.error "Invalid page number" := by
    have hcond : ¬ (1 ≤ n ∧ n ≤ p.last_page) := by omega
    simp only [Pages.jump, if_neg hcond]
  refine ⟨hj, ?_, ?_⟩
  · simp only [Pages.apply_jump, hj]
  · simp only [handle_pagination_modal, ne_eq, not_true_eq_false, if_false, hj,
      ite_self]

/-- C5 witness: jumping to page 5 of a 3-page cursor errors and leaves the
cursor unchanged. -/
theorem out_of_range_jump_witness :
    ((5 : Nat) < 1 ∨ (Pages.mk 0 15 37).last_page < 5) ∧
    (Pages.mk 0 15 37).jump 5 = Except.error "Invalid page number" ∧
    (Pages.mk 0 15 37).apply_jump 5 = Pages.mk 0 15 37 :=
  ⟨by decide,
    (out_of_range_jump 1 5 (Pages.mk 0 15 37) (by decide)).1,
    (out_of_range_jump 1 5 (Pages.mk 0 15 37) (by decide)).2.1⟩

/-- C9: `check_guess` returns true for `Higher` exactly when
`next.pp ≥ previous.pp` and for `Lower` exactly when
`next.pp ≤ previous.pp`; whenever the two pp values are equal, both guesses
are judged correct. -/
theorem check_guess_spec (s : HigherLowerState) :
    (s.check_guess HlGuess.higher = true ↔ s.next.pp ≥ s.previous.pp) ∧
    (s.check_guess HlGuess.lower = true ↔ s.next.pp ≤ s.previous.pp) ∧
    (s.next.pp = s.previous.pp →
      s.check_guess HlGuess.higher = true ∧ s.check_guess HlGuess.lower = true) := by
  refine ⟨by simp [HigherLowerState.check_guess], by simp [HigherLowerState.check_guess],
    fun h => ?_⟩
  simp [HigherLowerState.check_guess, h]

/-- C9 witness: with equal pp values (100 and 100), both guesses are judged
correct. -/
theorem check_guess_spec_witness :
    (HigherLowerState.mk GameMode.osu (ScorePp.mk 100 "a" 1)
      (ScorePp.mk 100 "b" 2)).check_guess HlGuess.higher = true ∧
    (HigherLowerState.mk GameMode.osu (ScorePp.mk 100 "a" 1)
      (ScorePp.mk 100 "b" 2)).check_guess HlGuess.lower = true :=
  (check_guess_spec (HigherLowerState.mk GameMode.osu (ScorePp.mk 100 "a" 1)
    (ScorePp.mk 100 "b" 2))).2.2 rfl

/-- C2 counterexample: the write does not carry a typed failure reason: on
failure the producer sends the plain empty string, which is
indistinguishable from a successful computation whose URL is empty. -/
theorem slot_write_not_typed : ¬ slot_write_is_typed := by
  intro h
  have h2 := h (Except.error (ImageError.failed "e")) (Except.ok "") rfl
  simp [Except.isOk, Except.toBool] at h2

/-- C2 (amended): the slot is written exactly once per producer run — so it
is written at most once and a terminal signal is always delivered, even when
computing the image fails — and the write carries the success payload on
success and the empty-string failure sentinel on failure. -/
theorem slot_written_once (res : ImageResult) :
    (image_producer_sends res).length = 1 ∧
    (∀ url, res = Except.ok url → image_producer_sends res = [url]) ∧
    (∀ e, res = Except.error e → image_producer_sends res = [""]) := by
  refine ⟨?_, fun url h => ?_, fun e h => ?_⟩ <;>
    cases res <;> simp_all [image_producer_sends]

/-- C2 witness: on a concrete failed image computation the producer still
sends exactly one terminal value, the empty-string sentinel. -/
theorem slot_written_once_witness :
    (image_producer_sends (Except.error (ImageError.failed "render failed"))).length = 1 ∧
    image_producer_sends (Except.error (ImageError.failed "render failed")) = [""] :=
  ⟨(slot_written_once (Except.error (ImageError.failed "render failed"))).1,
    (slot_written_once (Except.error (ImageError.failed "render failed"))).2.2
      (ImageError.failed "render failed") rfl⟩

/-- C7: for an entry created with `expires_after = 60` at time `t` and never
interacted with, once more than 60 seconds have passed the sweeper disables
the entry's controls and removes it, and any later component event for that
message identity yields the "stale" outcome without mutating any entry. -/
theorem sweeper_expiry (id t now later : Nat) (h : 60 < now - t) :
    sweep now [(id, ActiveMessageEntry.mk t 60)] = [] ∧
    sweep_disabled now [(id, ActiveMessageEntry.mk t 60)] = [id] ∧
    route_component (sweep now [(id, ActiveMessageEntry.mk t 60)]) id later =
      (RouteOutcome.stale, sweep now [(id, ActiveMessageEntry.mk t 60)]) := by
  have hexp : entry_expired now (ActiveMessageEntry.mk t 60) = true := by
    simp only [entry_expired, decide_eq_true_eq]
    exact h
  refine ⟨?_, ?_, ?_⟩
  · simp [sweep, hexp]
  · simp [sweep_disabled, hexp]
  · simp [route_component, sweep, hexp, registry_lookup, List.find?]

/-- C7 witness: an entry created at time 0 with a 60 second timeout, swept
at time 61, is removed and a later event at time 62 is stale. -/
theorem sweeper_expiry_witness :
    (60 : Nat) < 61 - 0 ∧
    sweep 61 [(7, ActiveMessageEntry.mk 0 60)] = [] ∧
    route_component (sweep 61 [(7, ActiveMessageEntry.mk 0 60)]) 7 62 =
      (RouteOutcome.stale, sweep 61 [(7, ActiveMessageEntry.mk 0 60)]) :=
  ⟨by decide, (sweeper_expiry 7 0 61 62 (by decide)).1,
    (sweeper_expiry 7 0 61 62 (by decide)).2.2⟩

/-- C8: when the sorted score list contains at most 15 entries, only the
single initial embed is posted: no pagination (with its 60 second timeout)
is started and the command returns right after sending the first page. -/
theorem rankings_no_pagination (scores : List (Nat × Nat))
    (h : scores.length ≤ 15) :
    (rankings_outcome scores).pagination_timeout = Option.none ∧
    (rankings_outcome scores).messages_posted = 1 ∧
    (rankings_outcome scores).first_page_entries =
      scores.mergeSort (fun a b => b.2 ≤ a.2) := by
  have hlen : (scores.mergeSort (fun a b => b.2 ≤ a.2)).length = scores.length :=
    List.length_mergeSort ..
  refine ⟨?_, rfl, ?_⟩
  · simp only [rankings_outcome, hlen, if_pos h]
  · simp only [rankings_outcome]
    exact List.take_of_length_le (by omega)

/-- C8 witness: a concrete two-entry score list posts one message and starts
no pagination. -/
theorem rankings_no_pagination_witness :
    ([(1, 10), (2, 20)] : List (Nat × Nat)).length ≤ 15 ∧
    (rankings_outcome [(1, 10), (2, 20)]).pagination_timeout = Option.none ∧
    (rankings_outcome [(1, 10), (2, 20)]).messages_posted = 1 :=
  ⟨by decide, (rankings_no_pagination [(1, 10), (2, 20)] (by decide)).1,
    (rankings_no_pagination [(1, 10), (2, 20)] (by decide)).2.1⟩

/-- C10: for every field produced by `Minesweeper::new(height, width,
mines)` with `mines < width * height`, every in-range cell is `Mine` or
`Num(n)` with `n` the count of neighboring mines, exactly `mines` cells are
mines, rendering every cell through `Display` never reaches the
`unreachable!()` branch for `Cell::None`, and all three difficulty presets
satisfy `mines < width * height`. -/
theorem minesweeper_field_sound (rng : List Nat) (height width mines : Nat)
    (ms : Minesweeper) (hm : mines < width * height)
    (hnew : Minesweeper.new rng height width mines = some ms) :
    (∀ x y, x < width → y < height →
      ms.field.get x y = Cell.mine ∨
      ms.field.get x y = Cell.num (ms.field.count_neighbors x y Cell.mine)) ∧
    mine_card ms.field = mines ∧
    (∀ x y, x < width → y < height →
      (ms.field.get x y).display.isSome = true) ∧
    (∀ d : Difficulty,
      d.create_params.2.2 < d.create_params.2.1 * d.create_params.1) := by
  have hsize : 0 < width * height := lt_of_le_of_lt (Nat.zero_le mines) hm
  obtain ⟨g, hg, hms⟩ : ∃ g, place_mines rng (Matrix.new width height) mines = some g ∧
      ms = Minesweeper.mk (place_numbers g) mines := by
    unfold Minesweeper.new at hnew
    rw [Option.map_eq_some'] at hnew
    obtain ⟨g, hg, hgeq⟩ := hnew
    exact ⟨g, hg, hgeq.symm⟩
  obtain ⟨hgw, hgh, hgcard, hgcells⟩ :=
    place_mines_spec rng (Matrix.new width height) mines g hsize hg
  have hgw2 : g.width = width := hgw
  have hgh2 : g.height = height := hgh
  have hgnone : ∀ x y, g.get x y = Cell.none ∨ g.get x y = Cell.mine := by
    intro x y
    rcases hgcells x y with hc | hc
    · exact Or.inl hc
    · exact Or.inr hc
  obtain ⟨rw2, rh2, rmine, rcells, rkeep, rdone⟩ :=
    place_numbers_fold g
      (List.product (List.range g.width) (List.range g.height)) g
      rfl rfl (fun x y => Iff.rfl) (fun x y => Or.inl rfl)
  have hfield : ms.field = place_numbers g := by rw [hms]
  have hfold : place_numbers g =
      (List.product (List.range g.width) (List.range g.height)).foldl
        place_numbers_step g := rfl
  have hmem : ∀ x y, x < width → y < height →
      ((x, y) : Nat × Nat) ∈
        List.product (List.range g.width) (List.range g.height) := by
    intro x y hx hy
    rw [List.pair_mem_product]
    exact ⟨List.mem_range.mpr (by omega), List.mem_range.mpr (by omega)⟩
  have hfin_count : ∀ x y, ms.field.count_neighbors x y Cell.mine =
      g.count_neighbors x y Cell.mine := by
    intro x y
    rw [hfield, hfold]
    exact count_neighbors_congr _ g rw2 rh2 Cell.mine rmine x y
  have hcell : ∀ x y, x < width → y < height →
      ms.field.get x y = Cell.mine ∨
      ms.field.get x y = Cell.num (ms.field.count_neighbors x y Cell.mine) := by
    intro x y hx hy
    have hne : (place_numbers g).get x y ≠ Cell.none := by
      rw [hfold]
      exact rdone (x, y) (hmem x y hx hy)
    rcases (by rw [hfield, hfold]; exact rcells x y :
        ms.field.get x y = g.get x y ∨
        ms.field.get x y = Cell.num (g.count_neighbors x y Cell.mine)) with hc | hc
    · rcases hgnone x y with hn | hn
      · rw [hfield] at hc
        exact absurd (hc.trans hn) hne
      · exact Or.inl (hc.trans hn)
    · exact Or.inr (by rw [hc, hfin_count])
  refine ⟨hcell, ?_, ?_, by intro d; cases d <;> decide⟩
  · have hcongr : mine_card ms.field = mine_card g := by
      rw [hfield, hfold]
      exact mine_card_congr _ g rw2 rh2 rmine
    rw [hcongr, hgcard, mine_card_new]
    omega
  · intro x y hx hy
    rcases hcell x y hx hy with hc | hc
    · rw [hc]; rfl
    · rw [hc]
      have hle : ms.field.count_neighbors x y Cell.mine ≤ 8 :=
        count_neighbors_le_eight _ _ _ _
      set cnum := ms.field.count_neighbors x y Cell.mine with hcn
      interval_cases cnum <;> rfl

/-- C10 witness: for a concrete RNG draw list, the easy 6 × 6 field with 6
mines is produced and every cell renders through `Display`. -/
theorem minesweeper_field_sound_witness :
    (6 : Nat) < 6 * 6 ∧
    ∃ ms, Minesweeper.new [0, 1, 2, 3, 4, 5] 6 6 6 = some ms ∧
      mine_card ms.field = 6 ∧
      (∀ x y, x < 6 → y < 6 → (ms.field.get x y).display.isSome = true) := by
  have hs : (Minesweeper.new [0, 1, 2, 3, 4, 5] 6 6 6).isSome = true := by decide
  have heq : Minesweeper.new [0, 1, 2, 3, 4, 5] 6 6 6 =
      some ((Minesweeper.new [0, 1, 2, 3, 4, 5] 6 6 6).get hs) :=
    (Option.some_get hs).symm
  have hmain := minesweeper_field_sound [0, 1, 2, 3, 4, 5] 6 6 6
    ((Minesweeper.new [0, 1, 2, 3, 4, 5] 6 6 6).get hs) (by decide) heq
  exact ⟨by decide, _, heq, hmain.2.1, hmain.2.2.1⟩

end Bathbot
